import Mathlib

/-! # SimpleBot: command parsing, keyboards, message helpers and the fast long-poll loop

A shallow embedding of `sources/simple_bot.cpp`.

* `std::string` is a list of characters (`CppString`).  The character classes of
  `<cctype>` are those of the "C" locale on the ASCII range; every character
  outside that range belongs to none of them.
* A `shared_ptr` is an `Option`; dereferencing a null pointer is the fault
  `Fault.nullDereference`, a thrown `std::exception` is `Fault.exception`.
* The Telegram client (`TgBot::Api`, `TgBot::EventHandler`) is external: its
  calls are answered by an arbitrary `Platform` acting on an abstract world
  state, and every call is recorded in a trace.
* Update ids and the polling cursor are fixed-width signed integers: their
  values are integers and `updateId + 1` is reduced to the width `idBits`.
-/

set_option autoImplicit false

/-! ## Strings -/

/-- A `std::string`. -/
abbrev CppString := List Char

/-- What a C++ evaluation can end in besides a value: an exception derived from
`std::exception` (with its `what()`), or a null pointer dereference. -/
inductive Fault where
  | exception (what : CppString)
  | nullDereference
  deriving DecidableEq, Repr

deriving instance DecidableEq for Except

/-- `std::isalpha` in the "C" locale. -/
def isalpha (c : Char) : Bool :=
  (65 ≤ c.toNat && c.toNat ≤ 90) || (97 ≤ c.toNat && c.toNat ≤ 122)

/-- `std::isdigit`. -/
def isdigit (c : Char) : Bool :=
  48 ≤ c.toNat && c.toNat ≤ 57

/-- `std::ispunct` in the "C" locale: the printable ASCII characters that are
neither a space nor alphanumeric. -/
def ispunct (c : Char) : Bool :=
  (33 ≤ c.toNat && c.toNat ≤ 47) || (58 ≤ c.toNat && c.toNat ≤ 64) ||
  (91 ≤ c.toNat && c.toNat ≤ 96) || (123 ≤ c.toNat && c.toNat ≤ 126)

namespace CppString

/-- `std::string::find(char)`: the index of the first occurrence, `none` for
`std::string::npos`. -/
def find : CppString → Char → Option Nat
  | [], _ => none
  | x :: xs, c => if x = c then some 0 else (find xs c).map (· + 1)

/-- `std::string::substr(pos, count)`; `count = none` is the default `npos`.
Throws `std::out_of_range` when `pos > size()`. -/
def substr (s : CppString) (pos : Nat) (count : Option Nat) : Except Fault CppString :=
  if pos > s.length then
    .error (.exception "basic_string::substr".toList)
  else
    match count with
    | none => .ok (s.drop pos)
    | some n => .ok ((s.drop pos).take n)

end CppString

/-! ## Command parser -/

namespace SimpleBot

/-- The loop of `GetCommandLength`: `rest` is `text` from index `i` on and
`size` is `text.size()`. -/
def GetCommandLength.loop (size : Nat) : CppString → Nat → Nat
  | [], _ => 0
  | c :: rest, i =>
    if isalpha c || isdigit c || ispunct c then
      if i = size - 1 then size else GetCommandLength.loop size rest (i + 1)
    else
      i

/-- `SimpleBot::GetCommandLength`, on `message->text`. -/
def GetCommandLength (text : CppString) : Nat :=
  if text.length = 0 || text.head? != some '/' then
    0
  else
    GetCommandLength.loop text.length text 0

/-- `SimpleBot::ParseCommand`, on the bot's `m_Username` and `message->text`.
`std::min(at, size)` with `at = npos` is `size`; `end - 1` is taken on an `end`
that is at least 1 (the region starts with the slash), so it never wraps. -/
def ParseCommand (m_Username : CppString) (text : CppString) : Except Fault CppString :=
  let length := GetCommandLength text
  if length = 0 then
    .ok []
  else
    (CppString.substr text 0 (some length)).bind fun command_name =>
    let at_ := CppString.find command_name '@'
    let end_ := match at_ with
      | none => command_name.length
      | some a => min a command_name.length
    (CppString.substr command_name 1 (some (end_ - 1))).bind fun command =>
    let checked : Except Fault Bool :=
      match at_ with
      | none => .ok true
      | some a =>
        (CppString.substr command_name (a + 1) none).bind fun command_bot_name =>
        .ok (decide (command_bot_name = m_Username))
    checked.bind fun addressed =>
    if !addressed then
      .ok []
    else if command.count ' ' != 0 then
      .ok []
    else
      .ok command

/-- `SimpleBot::GetTextWithoutCommand`. -/
def GetTextWithoutCommand (text : CppString) : Except Fault CppString :=
  let length := GetCommandLength text
  if length = 0 then .ok [] else CppString.substr text length none

end SimpleBot

/-- A command character: what the scan of `GetCommandLength` steps over. -/
def isCommandChar (c : Char) : Bool :=
  isalpha c || isdigit c || ispunct c

/-- The command region of a text: its leading run of command characters. -/
def commandRegion (text : CppString) : CppString :=
  text.takeWhile isCommandChar


/-! ## Keyboards -/

/-- A button of a keyboard layout (`simple_bot.hpp`). -/
structure KeyboardButton where
  Text : CppString
  CallbackData : CppString
  Enabled : Bool
  deriving DecidableEq, Repr

/-- Modelled from the spec: the two-argument constructor of `KeyboardButton`,
which `simple_bot.hpp` declares and which is not among the sources.  A button
has a display text, a callback payload and an enabled flag; a freshly built
button is enabled. -/
def KeyboardButton.make (text : CppString) (callback_data : CppString) : KeyboardButton :=
  { Text := text, CallbackData := callback_data, Enabled := true }

abbrev KeyboardLayout := List (List KeyboardButton)

namespace Keyboard

/-- The `for` loop of `ToNiceKeyboard` over the remaining texts, on the locals
`layout`, `row` and `i`.  `layout.push_back(std::move(row))` leaves `row`
empty. -/
def ToNiceKeyboard.loop (row_size : Nat) (make_key : CppString → CppString) :
    List CppString → KeyboardLayout → List KeyboardButton → Nat →
      KeyboardLayout × List KeyboardButton
  | [], layout, row, _ => (layout, row)
  | text :: rest, layout, row, i =>
    let row := row ++ [KeyboardButton.make text (make_key text)]
    let i := i + 1
    if i = row_size then
      ToNiceKeyboard.loop row_size make_key rest (layout ++ [row]) [] 0
    else
      ToNiceKeyboard.loop row_size make_key rest layout row i

/-- `Keyboard::ToNiceKeyboard`. -/
def ToNiceKeyboard (texts : List CppString) (row_size : Nat)
    (make_key : CppString → CppString) : KeyboardLayout :=
  match ToNiceKeyboard.loop row_size make_key texts [] [] 0 with
  | (layout, row) => if row.length ≠ 0 then layout ++ [row] else layout

end Keyboard

namespace TgBot

/-- The fields of `TgBot::InlineKeyboardButton` the bot sets. -/
structure InlineKeyboardButton where
  text : CppString
  callbackData : CppString
  deriving DecidableEq, Repr

/-- `TgBot::InlineKeyboardMarkup`. -/
structure InlineKeyboardMarkup where
  inlineKeyboard : List (List InlineKeyboardButton)
  deriving DecidableEq, Repr

/-- The fields of `TgBot::Chat` the bot reads. -/
structure Chat where
  id : Int
  username : CppString
  title : CppString
  deriving DecidableEq, Repr

/-- The fields of `TgBot::Message` the bot reads; `chat` is a `Chat::Ptr`. -/
structure Message where
  chat : Option Chat
  messageId : Int
  text : CppString
  deriving DecidableEq, Repr

/-- `TgBot::BotCommand`. -/
structure BotCommand where
  command : CppString
  description : CppString
  deriving DecidableEq, Repr

/-- `TgBot::Update`: its id and its (opaque) event. -/
structure Update where
  updateId : Int
  event : Nat
  deriving DecidableEq, Repr

end TgBot

open TgBot

/-- The inner loop of `ToInlineKeyboardMarkup`: the wire row of one layout row. -/
def ToInlineKeyboardMarkup.row (row : List KeyboardButton) : List InlineKeyboardButton :=
  row.foldl
    (fun row_markup button =>
      if !button.Enabled then
        row_markup
      else
        row_markup ++ [{ text := button.Text, callbackData := button.CallbackData }])
    []

/-- `ToInlineKeyboardMarkup`; `none` is `nullptr`. -/
def ToInlineKeyboardMarkup (keyboard : KeyboardLayout) : Option InlineKeyboardMarkup :=
  if keyboard.length = 0 then
    none
  else
    some
      { inlineKeyboard :=
          keyboard.foldl
            (fun inlineKeyboard row =>
              let row_markup := ToInlineKeyboardMarkup.row row
              if row_markup.length ≠ 0 then inlineKeyboard ++ [row_markup] else inlineKeyboard)
            [] }

/-! ## Maps -/

/-- The assignment `m[k] = v` on the entries of a map: the value of an existing
key is replaced, a new key gets a new entry. -/
def CppMap.assignList {K V : Type} [DecidableEq K] : List (K × V) → K → V → List (K × V)
  | [], k, v => [(k, v)]
  | (k', v') :: rest, k, v =>
    if k' = k then (k, v) :: rest else (k', v') :: CppMap.assignList rest k v

/-- The lookup of a key among the entries of a map. -/
def CppMap.findList {K V : Type} [DecidableEq K] : List (K × V) → K → Option V
  | [], _ => none
  | (k', v') :: rest, k => if k' = k then some v' else CppMap.findList rest k

/-- Modelled from the spec: the container of `m_CommandHandlers` and
`m_CommandDescriptions`, which `simple_bot.hpp` declares and which is not among
the sources.  The registry is a mapping with unique keys in which the last
registration of a key wins: entries with pairwise distinct keys.  `entries` is
the order of iteration, which a standard map fixes by key or leaves
unspecified; nothing below depends on it. -/
structure CppMap (K V : Type) [DecidableEq K] where
  entries : List (K × V)
  nodup : (entries.map Prod.fst).Nodup

namespace CppMap

variable {K V : Type} [DecidableEq K]

/-- The empty map. -/
def empty : CppMap K V :=
  { entries := [], nodup := List.nodup_nil }

/-- The statement `m[k] = v`. -/
def assign (m : CppMap K V) (k : K) (v : V) : CppMap K V :=
  { entries := assignList m.entries k v
    nodup := by
      have key : ∀ l : List (K × V), (assignList l k v).map Prod.fst =
          if k ∈ l.map Prod.fst then l.map Prod.fst else l.map Prod.fst ++ [k] := by
        intro l
        induction l with
        | nil => simp [assignList]
        | cons e rest ih =>
          obtain ⟨k', v'⟩ := e
          by_cases h : k' = k
          · simp [assignList, h]
          · have h' : ¬ k = k' := fun e => h e.symm
            by_cases hm : k ∈ rest.map Prod.fst
            · simp only [assignList, h, if_false, List.map_cons, ih, hm, if_true,
                List.mem_cons, or_true]
            · simp only [assignList, h, if_false, List.map_cons, ih, hm, List.mem_cons, h',
                or_self, List.cons_append]
      rw [key]
      split
      · exact m.nodup
      · next hk =>
        refine List.Nodup.append m.nodup (List.nodup_singleton k) ?_
        intro a ha hb
        rw [List.mem_singleton] at hb
        exact hk (hb ▸ ha) }

/-- The member `find`: `none` is `end()`. -/
def find (m : CppMap K V) (k : K) : Option V :=
  findList m.entries k

end CppMap

/-! ## The bot and the platform -/

/-- A call to the underlying `TgBot::Api`, with the arguments the bot passes. -/
inductive ApiCall where
  | sendMessage (chatId : Int) (text : CppString) (linkPreviewDisabled : Bool)
      (replyChatId : Int) (replyMessageId : Int) (replyMarkup : Option InlineKeyboardMarkup)
      (parseMode : CppString) (messageThreadId : Int)
  | getChat (chatId : Int)
  | editMessageText (text : CppString) (chatId : Int) (messageId : Int)
      (parseMode : CppString) (linkPreviewDisabled : Bool)
      (replyMarkup : Option InlineKeyboardMarkup)
  | editMessageReplyMarkup (chatId : Int) (messageId : Int)
      (replyMarkup : Option InlineKeyboardMarkup)
  | deleteMessage (chatId : Int) (messageId : Int)
  | setMyCommands (commands : List BotCommand)
  | getUpdates (offset : Int) (limit : Int) (timeout : Int)
      (allowedUpdates : Option (List CppString))
  deriving DecidableEq, Repr

/-- An argument of a formatted log line. -/
inductive LogArg where
  | str (s : CppString)
  | int (i : Int)
  deriving DecidableEq, Repr

/-- A line handed to the log handler: the format and its arguments. -/
structure LogLine where
  format : CppString
  args : List LogArg
  deriving DecidableEq, Repr

/-- The external collaborators, acting on a world state `W`: each call of the
API client, the event dispatch of `TgBot::EventHandler`, and the registered
command handlers (identified by `H`) either return or throw an exception with
the given `what()`. -/
structure Platform (W H : Type) where
  sendMessage : ApiCall → W → W × Except CppString (Option Message)
  getChat : ApiCall → W → W × Except CppString (Option Chat)
  editMessage : ApiCall → W → W × Except CppString (Option Message)
  deleteMessage : ApiCall → W → W × Except CppString Bool
  setMyCommands : ApiCall → W → W × Except CppString Bool
  getUpdates : ApiCall → W → W × Except CppString (List Update)
  handleUpdate : Update → W → W × Except CppString Unit
  handler : H → Option Message → W → W × Except CppString Unit

/-- The state of a `SimpleBot`, the world it talks to, and what it has done so
far: the API calls made, the lines logged, the command handlers invoked and
the updates handed to the event dispatch, each in order. -/
structure SimpleBot (W H : Type) where
  world : W
  m_Username : CppString
  m_Log : Bool
  DisableWebpagePreview : Bool
  ParseMode : CppString
  m_CommandHandlers : CppMap CppString H
  m_CommandDescriptions : CppMap CppString CppString
  apiCalls : List ApiCall
  logged : List LogLine
  invoked : List (H × Option Message)
  dispatched : List Update

/-- Dereferencing a `shared_ptr`. -/
def deref {α : Type} : Option α → Except Fault α
  | none => .error .nullDereference
  | some a => .ok a

namespace SimpleBot

variable {W H : Type}

/-- A call of the API client: the platform answers, the call is recorded. -/
def callApi {α : Type} (bot : SimpleBot W H) (call : ApiCall)
    (answer : ApiCall → W → W × Except CppString α) : SimpleBot W H × Except CppString α :=
  match answer call bot.world with
  | (world, result) => ({ bot with world := world, apiCalls := bot.apiCalls ++ [call] }, result)

/-- `SimpleBot::Log`: nothing happens when no handler is installed. -/
def Log (bot : SimpleBot W H) (format : String) (args : List LogArg) : SimpleBot W H :=
  if !bot.m_Log then
    bot
  else
    { bot with logged := bot.logged ++ [{ format := format.toList, args := args }] }

/-- `SimpleBot::SendMessage(chat, topic, message, reply, reply_message)`. -/
def SendMessage (api : Platform W H) (bot : SimpleBot W H) (chat : Int) (topic : Int)
    (message : CppString) (reply : Option InlineKeyboardMarkup) (reply_message : Int) :
    SimpleBot W H × Except Fault (Option Message) :=
  if message.length = 0 then
    (Log bot "Can't send empty messages" [], .ok none)
  else
    let call := ApiCall.sendMessage chat message bot.DisableWebpagePreview chat reply_message
      reply bot.ParseMode topic
    match callApi bot call api.sendMessage with
    | (bot, .ok result) => (bot, .ok result)
    | (bot, .error what) =>
      match callApi bot (.getChat chat) api.getChat with
      | (bot, .error what_chat) => (bot, .error (.exception what_chat))
      | (bot, .ok none) => (bot, .error .nullDereference)
      | (bot, .ok (some chat_ptr)) =>
        let chat_name :=
          if chat_ptr.username.length ≠ 0 then chat_ptr.username else chat_ptr.title
        (Log bot "Failed to send message to chat '%' id % reason %"
          [.str chat_name, .int chat, .str what], .ok none)

/-- `SimpleBot::EditMessage(message, text, reply)`.  The condition and the
arguments of the API call dereference `message` and `message->chat`. -/
def EditMessage (api : Platform W H) (bot : SimpleBot W H) (message : Option Message)
    (text : CppString) (reply : Option InlineKeyboardMarkup) :
    SimpleBot W H × Except Fault (Option Message) :=
  let condition : Except Fault Bool :=
    if text.length = 0 then .ok false
    else (deref message).bind fun m => .ok (m.text != text)
  match condition with
  | .error fault => (bot, .error fault)
  | .ok changed =>
    match (deref message).bind fun m => (deref m.chat).bind fun chat => .ok (m, chat) with
    | .error fault => (bot, .error fault)
    | .ok (m, chat_ptr) =>
      let call :=
        if changed then
          ApiCall.editMessageText text chat_ptr.id m.messageId bot.ParseMode
            bot.DisableWebpagePreview reply
        else
          ApiCall.editMessageReplyMarkup chat_ptr.id m.messageId reply
      match callApi bot call api.editMessage with
      | (bot, .ok result) => (bot, .ok result)
      | (bot, .error what) =>
        let chat_name :=
          if chat_ptr.username.length ≠ 0 then chat_ptr.username else chat_ptr.title
        (Log bot "Failed to edit message in chat '%' id % reason %"
          [.str chat_name, .int chat_ptr.id, .str what], .ok none)

/-- `SimpleBot::DeleteMessage(message)`.  A failed `assert(message->chat)` ends
like the dereference of the null chat that follows it. -/
def DeleteMessage (api : Platform W H) (bot : SimpleBot W H) (message : Option Message) :
    SimpleBot W H × Except Fault Unit :=
  match message with
  | none => (bot, .ok ())
  | some m =>
    match deref m.chat with
    | .error fault => (bot, .error fault)
    | .ok chat =>
      match callApi bot (.deleteMessage chat.id m.messageId) api.deleteMessage with
      | (bot, .ok _) => (bot, .ok ())
      | (bot, .error what) =>
        let chat_name := if chat.username.length ≠ 0 then chat.username else chat.title
        (Log bot "Failed to delete message % from chat %, id %, reason: %"
          [.int m.messageId, .str chat_name, .int chat.id, .str what], .ok ())

/-- `SimpleBot::OnCommand(command, handler, description)`. -/
def OnCommand (bot : SimpleBot W H) (command : CppString) (handler : H)
    (description : CppString) : SimpleBot W H :=
  { bot with
    m_CommandHandlers := bot.m_CommandHandlers.assign command handler
    m_CommandDescriptions := bot.m_CommandDescriptions.assign command description }

/-- `SimpleBot::BroadcastCommand(command, message)`: the handler found is called
once, and what it throws is thrown on. -/
def BroadcastCommand (api : Platform W H) (bot : SimpleBot W H) (command : CppString)
    (message : Option Message) : SimpleBot W H × Except Fault Unit :=
  match bot.m_CommandHandlers.find command with
  | none => (bot, .ok ())
  | some handler =>
    match api.handler handler message bot.world with
    | (world, result) =>
      ({ bot with world := world, invoked := bot.invoked ++ [(handler, message)] },
        result.mapError Fault.exception)

/-- The list `commands` that `UpdateCommandDescriptions` builds from the
descriptions. -/
def UpdateCommandDescriptions.commands (bot : SimpleBot W H) : List BotCommand :=
  bot.m_CommandDescriptions.entries.foldl
    (fun commands entry =>
      if entry.2.length = 0 then
        commands
      else
        commands ++ [{ command := entry.1, description := entry.2 }])
    []

/-- `SimpleBot::UpdateCommandDescriptions`. -/
def UpdateCommandDescriptions (api : Platform W H) (bot : SimpleBot W H) :
    SimpleBot W H × Except Fault Unit :=
  let commands := UpdateCommandDescriptions.commands bot
  match callApi bot (.setMyCommands commands) api.setMyCommands with
  | (bot, .ok _) => (bot, .ok ())
  | (bot, .error what) => (Log bot "Failed to set bot commands: %" [.str what], .ok ())

end SimpleBot

/-! ## The fast long-poll loop -/

/-- The value that a two's complement integer of `bits` bits holds for the
mathematical result `x`: `x` reduced into the range from `-2^(bits-1)` up to
`2^(bits-1) - 1`.  This is what `updateId + 1` evaluates to on the usual
targets when it leaves the range of its type. -/
def wrapSigned (bits : Nat) (x : Int) : Int :=
  (x + Int.ofNat (2 ^ (bits - 1))) % Int.ofNat (2 ^ bits) - Int.ofNat (2 ^ (bits - 1))

/-- The members of `FastLongPoll` besides the pointers to the API client and
the event handler.  `FastLongPoll.hpp`, which declares them, and the TgBot
header that declares `Update::updateId` are not among the sources: the values
of the cursor and of the ids are integers, and the width of their type is the
parameter `idBits` of the functions below (32 for the `std::int32_t` of
TgBot). -/
structure FastLongPoll where
  _lastUpdateId : Int
  _limit : Int
  _timeout : Int
  _allowUpdates : Option (List CppString)
  _updates : List Update
  deriving DecidableEq, Repr

/-- A `SimplePollBot`: a `SimpleBot` with its `m_Poll`. -/
structure SimplePollBot (W H : Type) extends SimpleBot W H where
  m_Poll : FastLongPoll

namespace FastLongPoll

variable {W H : Type}

/-- The loop of the constructor over the updates that `getUpdates(-1, 1)`
returned; `item->updateId + 1` is computed in `idBits` bits. -/
def fastForward (idBits : Nat) : List Update → Int → Int
  | [], lastUpdateId => lastUpdateId
  | item :: rest, lastUpdateId =>
    if item.updateId ≥ lastUpdateId then
      fastForward idBits rest (wrapSigned idBits (item.updateId + 1))
    else
      fastForward idBits rest lastUpdateId

/-- The constructor of `FastLongPoll`.  `lastUpdateId` is the value the member
initializer in `FastLongPoll.hpp` gives `_lastUpdateId`.  An exception of
`getUpdates` leaves the constructor.  The write of `_timeout + 5` to the HTTP
client touches nothing the bot reads back and is left out. -/
def new (idBits : Nat) (api : Platform W H) (bot : SimpleBot W H) (lastUpdateId : Int)
    (limit : Int) (timeout : Int) (allowUpdates : Option (List CppString)) :
    SimpleBot W H × Except Fault FastLongPoll :=
  match bot.callApi (.getUpdates (-1) 1 0 none) api.getUpdates with
  | (bot, .error what) => (bot, .error (.exception what))
  | (bot, .ok updates) =>
    (bot, .ok
      { _lastUpdateId := fastForward idBits updates lastUpdateId
        _limit := limit
        _timeout := timeout
        _allowUpdates := allowUpdates
        _updates := [] })

/-- The loop of `handleUpdates` over the remaining updates: the cursor is
advanced (`item->updateId + 1` computed in `idBits` bits), then the update is
handed to `_eventHandler->handleUpdate`, whose exception leaves the loop. -/
def handleUpdates.loop (idBits : Nat) (api : Platform W H) :
    List Update → SimplePollBot W H → SimplePollBot W H × Except Fault Unit
  | [], s => (s, .ok ())
  | item :: rest, s =>
    let poll :=
      if item.updateId ≥ s.m_Poll._lastUpdateId then
        { s.m_Poll with _lastUpdateId := wrapSigned idBits (item.updateId + 1) }
      else
        s.m_Poll
    match api.handleUpdate item s.world with
    | (world, result) =>
      let s : SimplePollBot W H :=
        { s with world := world, dispatched := s.dispatched ++ [item], m_Poll := poll }
      match result with
      | .error what => (s, .error (.exception what))
      | .ok _ => handleUpdates.loop idBits api rest s

/-- `FastLongPoll::handleUpdates`. -/
def handleUpdates (idBits : Nat) (api : Platform W H) (s : SimplePollBot W H) :
    SimplePollBot W H × Except Fault Unit :=
  handleUpdates.loop idBits api s.m_Poll._updates s

/-- `FastLongPoll::start`. -/
def start (idBits : Nat) (api : Platform W H) (s : SimplePollBot W H) :
    SimplePollBot W H × Except Fault Unit :=
  let call := ApiCall.getUpdates s.m_Poll._lastUpdateId s.m_Poll._limit s.m_Poll._timeout
    s.m_Poll._allowUpdates
  match s.toSimpleBot.callApi call api.getUpdates with
  | (bot, .error what) => ({ s with toSimpleBot := bot }, .error (.exception what))
  | (bot, .ok updates) =>
    handleUpdates idBits api
      { toSimpleBot := bot, m_Poll := { s.m_Poll with _updates := updates } }

end FastLongPoll

/-- `SimplePollBot::LongPollIteration`: an exception of `start` is caught and
logged. -/
def SimplePollBot.LongPollIteration {W H : Type} (idBits : Nat) (api : Platform W H)
    (s : SimplePollBot W H) : SimplePollBot W H × Except Fault Unit :=
  match FastLongPoll.start idBits api s with
  | (s, .ok _) => (s, .ok ())
  | (s, .error (.exception what)) =>
    ({ s with toSimpleBot := s.toSimpleBot.Log "LongPoolException: %" [.str what] }, .ok ())
  | (s, .error fault) => (s, .error fault)

/-! ## Vocabulary of the statements -/

/-- What ends a command region: the end of the text, or a character that is
not a command character. -/
def stopsScan : CppString → Bool
  | [] => true
  | c :: _ => !isCommandChar c

/-- The row-major chunking of a list into rows of `row_size`: row `j` is the
segment from `j * row_size` up to `(j + 1) * row_size` or the end, and there are
`ceil (length / row_size)` rows. -/
def rowMajor {α : Type} (row_size : Nat) (l : List α) : List (List α) :=
  (List.range ((l.length + row_size - 1) / row_size)).map fun j =>
    (l.drop (j * row_size)).take row_size

/-- The first failure of the event dispatch over `batch`, started in the world
`w`, is at index `k`: the updates before it are handled without an exception,
the update at `k` throws. -/
def dispatchFailsAt {W H : Type} (api : Platform W H) : W → List Update → Nat → Bool
  | _, [], _ => false
  | w, item :: rest, k =>
    match api.handleUpdate item w, k with
    | (_, .error _), 0 => true
    | (_, .error _), _ + 1 => false
    | (_, .ok _), 0 => false
    | (w, .ok _), k + 1 => dispatchFailsAt api w rest k

/-- The smallest value of a two's complement integer of `bits` bits. -/
def idMin (bits : Nat) : Int :=
  -Int.ofNat (2 ^ (bits - 1))

/-- The largest value of a two's complement integer of `bits` bits. -/
def idMax (bits : Nat) : Int :=
  Int.ofNat (2 ^ (bits - 1)) - 1

/-! ## Concrete bots and platforms -/

/-- A platform without state on which every API call throws `network`; the
event dispatch and the command handlers return. -/
def Platform.offline : Platform Unit Nat :=
  { sendMessage := fun _ w => (w, .error "network".toList)
    getChat := fun _ w => (w, .error "network".toList)
    editMessage := fun _ w => (w, .error "network".toList)
    deleteMessage := fun _ w => (w, .error "network".toList)
    setMyCommands := fun _ w => (w, .error "network".toList)
    getUpdates := fun _ w => (w, .error "network".toList)
    handleUpdate := fun _ w => (w, .ok ())
    handler := fun _ _ w => (w, .ok ()) }

/-- A platform that delivers the updates 42, 43, 44 and whose event dispatch
throws on the update 43. -/
def Platform.failsOn43 : Platform Unit Nat :=
  { sendMessage := fun _ w => (w, .ok none)
    getChat := fun _ w => (w, .ok none)
    editMessage := fun _ w => (w, .ok none)
    deleteMessage := fun _ w => (w, .ok true)
    setMyCommands := fun _ w => (w, .ok true)
    getUpdates := fun _ w =>
      (w, .ok [{ updateId := 42, event := 0 }, { updateId := 43, event := 1 },
        { updateId := 44, event := 2 }])
    handleUpdate := fun item w =>
      (w, if item.updateId = 43 then .error "handler".toList else .ok ())
    handler := fun _ _ w => (w, .ok ()) }

/-- A platform that delivers the one update 2147483647, the largest id of 32
bits, and whose event dispatch throws on it. -/
def Platform.failsOnLargest : Platform Unit Nat :=
  { sendMessage := fun _ w => (w, .ok none)
    getChat := fun _ w => (w, .ok none)
    editMessage := fun _ w => (w, .ok none)
    deleteMessage := fun _ w => (w, .ok true)
    setMyCommands := fun _ w => (w, .ok true)
    getUpdates := fun _ w => (w, .ok [{ updateId := 2147483647, event := 0 }])
    handleUpdate := fun _ w => (w, .error "handler".toList)
    handler := fun _ _ w => (w, .ok ()) }

/-- A bot that has registered nothing and done nothing, with a log handler. -/
def SimpleBot.fresh : SimpleBot Unit Nat :=
  { world := ()
    m_Username := "bot".toList
    m_Log := true
    DisableWebpagePreview := false
    ParseMode := []
    m_CommandHandlers := CppMap.empty
    m_CommandDescriptions := CppMap.empty
    apiCalls := []
    logged := []
    invoked := []
    dispatched := [] }

/-- A fresh poll bot whose cursor is 42. -/
def SimplePollBot.fresh : SimplePollBot Unit Nat :=
  { toSimpleBot := SimpleBot.fresh
    m_Poll :=
      { _lastUpdateId := 42, _limit := 100, _timeout := 10, _allowUpdates := none,
        _updates := [] } }

/-! ## The command parser: proofs -/

theorem List.take_length_takeWhile {α : Type} (p : α → Bool) (l : List α) :
    l.take (l.takeWhile p).length = l.takeWhile p := by
  induction l with
  | nil => rfl
  | cons a l ih =>
    by_cases h : p a
    · simp [List.takeWhile_cons_of_pos h, ih]
    · simp [List.takeWhile_cons_of_neg h]

theorem CppString.find_of_not_mem (s : CppString) (c : Char) (h : c ∉ s) :
    CppString.find s c = none := by
  induction s with
  | nil => rfl
  | cons x xs ih =>
    have hx : ¬ x = c := fun e => h (e ▸ List.mem_cons_self _ _)
    have hxs : c ∉ xs := fun m => h (List.mem_cons_of_mem _ m)
    simp [CppString.find, hx, ih hxs]

theorem CppString.find_append_cons (pre suf : CppString) (c : Char) (h : c ∉ pre) :
    CppString.find (pre ++ c :: suf) c = some pre.length := by
  induction pre with
  | nil => simp [CppString.find]
  | cons x xs ih =>
    have hx : ¬ x = c := fun e => h (e ▸ List.mem_cons_self _ _)
    have hxs : c ∉ xs := fun m => h (List.mem_cons_of_mem _ m)
    simp [CppString.find, hx, ih hxs]

theorem SimpleBot.GetCommandLength.loop_eq_region (size : Nat) (l : CppString) (i : Nat)
    (hsize : size = i + l.length) (hne : l ≠ []) :
    SimpleBot.GetCommandLength.loop size l i = i + (l.takeWhile isCommandChar).length := by
  induction l generalizing i with
  | nil => exact absurd rfl hne
  | cons c rest ih =>
    by_cases hc : isCommandChar c = true
    · have hc' : (isalpha c || isdigit c || ispunct c) = true := hc
      rw [SimpleBot.GetCommandLength.loop, if_pos hc', List.takeWhile_cons_of_pos hc]
      cases rest with
      | nil => simp [hsize]
      | cons d rest' =>
        have hi : ¬ i = size - 1 := by
          simp only [List.length_cons] at hsize
          omega
        rw [if_neg hi, ih (i + 1) (by simp only [List.length_cons] at hsize ⊢; omega)
          (List.cons_ne_nil _ _)]
        simp only [List.length_cons]
        omega
    · have hc' : ¬ (isalpha c || isdigit c || ispunct c) = true := hc
      rw [SimpleBot.GetCommandLength.loop, if_neg hc', List.takeWhile_cons_of_neg hc]
      simp

theorem SimpleBot.GetCommandLength_eq (text : CppString) (h : text.head? = some '/') :
    SimpleBot.GetCommandLength text = (commandRegion text).length := by
  have hne : text ≠ [] := by
    intro e
    rw [e] at h
    exact absurd h (by simp)
  have hlen : ¬ text.length = 0 := fun e => hne (List.length_eq_zero.mp e)
  unfold SimpleBot.GetCommandLength
  simp only [hlen, h, bne_self_eq_false, decide_False, Bool.or_self, Bool.false_eq_true,
    if_false]
  rw [SimpleBot.GetCommandLength.loop_eq_region text.length text 0 (by simp) hne]
  simp [commandRegion]

theorem commandRegion_head (text : CppString) (h : text.head? = some '/') :
    ∃ r, commandRegion text = '/' :: r := by
  cases text with
  | nil => exact absurd h (by simp)
  | cons c rest =>
    simp only [List.head?_cons, Option.some.injEq] at h
    subst h
    exact ⟨rest.takeWhile isCommandChar, by
      simp [commandRegion, List.takeWhile_cons, isCommandChar, ispunct]⟩

theorem space_not_mem_commandRegion (text : CppString) : ' ' ∉ commandRegion text := by
  intro h
  have := List.mem_takeWhile_imp h
  simp [isCommandChar, isalpha, isdigit, ispunct] at this

/-- The result of `ParseCommand` on a text that starts with the slash and whose
command region has no `@`: the region without the slash. -/
theorem SimpleBot.ParseCommand_of_no_at (u text : CppString) (h : text.head? = some '/')
    (hat : '@' ∉ commandRegion text) :
    SimpleBot.ParseCommand u text = .ok ((commandRegion text).drop 1) := by
  obtain ⟨r, hr⟩ := commandRegion_head text h
  have hsp := space_not_mem_commandRegion text
  have hlen := SimpleBot.GetCommandLength_eq text h
  have htake : text.take (commandRegion text).length = commandRegion text :=
    List.take_length_takeWhile _ _
  rw [hr] at hsp hat
  have hsp' : ' ' ∉ r := fun m => hsp (List.mem_cons_of_mem _ m)
  have hfind := CppString.find_of_not_mem (commandRegion text) '@' (hr ▸ hat)
  simp only [SimpleBot.ParseCommand, hlen, CppString.substr, List.drop_zero, htake, gt_iff_lt,
    Nat.not_lt_zero, if_false, Except.bind, hfind]
  simp [hr, List.count_eq_zero.mpr hsp']

/-- The result of `ParseCommand` on a text that starts with the slash and whose
command region splits at its first `@` into `pre` and `suf`. -/
theorem SimpleBot.ParseCommand_of_at (u text pre suf : CppString) (h : text.head? = some '/')
    (hsplit : commandRegion text = pre ++ '@' :: suf) (hpre : '@' ∉ pre) :
    SimpleBot.ParseCommand u text = if suf = u then .ok (pre.drop 1) else .ok [] := by
  obtain ⟨r, hr⟩ := commandRegion_head text h
  have hsp := space_not_mem_commandRegion text
  have hlen := SimpleBot.GetCommandLength_eq text h
  have htake : text.take (commandRegion text).length = commandRegion text :=
    List.take_length_takeWhile _ _
  have hpre_ne : ∃ p, pre = '/' :: p := by
    cases pre with
    | nil =>
      rw [hr] at hsplit
      simp at hsplit
    | cons c p =>
      rw [hr] at hsplit
      simp only [List.cons_append, List.cons.injEq] at hsplit
      exact ⟨p, by rw [← hsplit.1]⟩
  obtain ⟨p, hp⟩ := hpre_ne
  have hsp' : ' ' ∉ p := by
    intro m
    apply hsp
    rw [hsplit, hp]
    simp [m]
  have hfind : CppString.find (commandRegion text) '@' = some pre.length := by
    rw [hsplit]
    exact CppString.find_append_cons _ _ _ hpre
  simp only [SimpleBot.ParseCommand, hlen, CppString.substr, List.drop_zero, htake, gt_iff_lt,
    Nat.not_lt_zero, if_false, Except.bind, hfind]
  rw [hsplit]
  subst hp
  by_cases hu : suf = u
  · simp [hu, List.count_eq_zero.mpr hsp', List.take_append_eq_append_take]
  · simp [hu, List.take_append_eq_append_take]

theorem commandRegion_append (a b : CppString) (ha : ∀ c ∈ a, isCommandChar c = true)
    (hb : stopsScan b = true) : commandRegion (a ++ b) = a := by
  unfold commandRegion
  rw [List.takeWhile_append_of_pos ha]
  cases b with
  | nil => simp
  | cons c r =>
    have hc : ¬ isCommandChar c = true := by simpa [stopsScan] using hb
    simp [List.takeWhile_cons_of_neg hc]

/-- C1: on the text `"/" ++ name ++ tail`, where `name` is non-empty and made of
command characters other than `@`, and `tail` either ends the command region
(it is empty or starts with a character that is not a command character) or is
`"@" ++ u` for the bot's username `u` (made of command characters) followed by
something that ends the region, `ParseCommand` returns exactly `name`. -/
theorem SimpleBot.ParseCommand_returns_name (u name tail : CppString)
    (_hname : name ≠ [])
    (hchars : ∀ c ∈ name, isCommandChar c = true ∧ c ≠ '@')
    (htail : stopsScan tail = true ∨
      ∃ rest, tail = '@' :: u ++ rest ∧ (∀ c ∈ u, isCommandChar c = true) ∧
        stopsScan rest = true) :
    SimpleBot.ParseCommand u ('/' :: name ++ tail) = .ok name := by
  have hhead : ('/' :: name ++ tail).head? = some '/' := rfl
  have hslash : ∀ c ∈ '/' :: name, isCommandChar c = true := by
    intro c hc
    rcases List.mem_cons.mp hc with rfl | hc
    · decide
    · exact (hchars c hc).1
  have hnoat : '@' ∉ '/' :: name := by
    intro hc
    rcases List.mem_cons.mp hc with e | hc
    · exact absurd e (by decide)
    · exact (hchars _ hc).2 rfl
  rcases htail with hstop | ⟨rest, rfl, hu, hstop⟩
  · have hreg : commandRegion ('/' :: name ++ tail) = '/' :: name :=
      commandRegion_append ('/' :: name) tail hslash hstop
    rw [SimpleBot.ParseCommand_of_no_at u _ hhead (by rw [hreg]; exact hnoat), hreg]
    rfl
  · have hall : ∀ c ∈ ('/' :: name) ++ '@' :: u, isCommandChar c = true := by
      intro c hc
      rcases List.mem_append.mp hc with hc | hc
      · exact hslash c hc
      · rcases List.mem_cons.mp hc with rfl | hc
        · decide
        · exact hu c hc
    have hreg : commandRegion ('/' :: name ++ ('@' :: u ++ rest)) = ('/' :: name) ++ '@' :: u := by
      have := commandRegion_append (('/' :: name) ++ '@' :: u) rest hall hstop
      simpa using this
    rw [SimpleBot.ParseCommand_of_at u _ ('/' :: name) u hhead hreg hnoat]
    simp

/-- C1 at the text `/start@bot hi` for the bot `bot`. -/
theorem SimpleBot.ParseCommand_returns_name_witness :
    "start".toList ≠ [] ∧ (∀ c ∈ "start".toList, isCommandChar c = true ∧ c ≠ '@') ∧
      SimpleBot.ParseCommand "bot".toList ('/' :: "start".toList ++ "@bot hi".toList) =
        .ok "start".toList :=
  ⟨by decide, by decide,
    SimpleBot.ParseCommand_returns_name "bot".toList "start".toList "@bot hi".toList
      (by decide) (by decide) (Or.inr ⟨" hi".toList, by decide, by decide, by decide⟩)⟩

/-- C2: `ParseCommand` returns the empty string for the empty text, for a text
whose first character is not the slash, and for a text starting with the slash
whose command region contains `@` and whose part after the first `@` differs
from the bot's username. -/
theorem SimpleBot.ParseCommand_no_command (u text : CppString)
    (h : text = [] ∨ text.head? ≠ some '/' ∨
      (text.head? = some '/' ∧ ∃ pre suf, commandRegion text = pre ++ '@' :: suf ∧
        '@' ∉ pre ∧ suf ≠ u)) :
    SimpleBot.ParseCommand u text = .ok [] := by
  rcases h with rfl | hne | ⟨hhead, pre, suf, hsplit, hpre, hsuf⟩
  · rfl
  · have : SimpleBot.GetCommandLength text = 0 := by
      unfold SimpleBot.GetCommandLength
      simp [hne]
    simp [SimpleBot.ParseCommand, this]
  · rw [SimpleBot.ParseCommand_of_at u text pre suf hhead hsplit hpre, if_neg hsuf]

/-- C2 at the text `/start@other hi` for the bot `bot`. -/
theorem SimpleBot.ParseCommand_no_command_witness :
    SimpleBot.ParseCommand "bot".toList "/start@other hi".toList = .ok [] :=
  SimpleBot.ParseCommand_no_command "bot".toList "/start@other hi".toList
    (Or.inr (Or.inr ⟨by decide, "/start".toList, "other".toList, by decide, by decide,
      by decide⟩))

/-! ## Keyboards: proofs -/

theorem rowMajor_short {α : Type} (row_size : Nat) (l : List α) (h : l.length < row_size) :
    rowMajor row_size l = if l.length ≠ 0 then [l] else [] := by
  unfold rowMajor
  by_cases h0 : l.length = 0
  · have : (l.length + row_size - 1) / row_size = 0 := by
      rw [h0]
      exact Nat.div_eq_of_lt (by omega)
    rw [this]
    simp [h0]
  · have : (l.length + row_size - 1) / row_size = 1 := by
      have h1 : l.length + row_size - 1 = (l.length - 1) + row_size := by omega
      rw [h1, Nat.add_div_right _ (by omega), Nat.div_eq_of_lt (by omega)]
    rw [this]
    simp [h0, List.range_succ, List.take_of_length_le (Nat.le_of_lt h)]

theorem rowMajor_full_append {α : Type} (row_size : Nat) (l rest : List α)
    (h : l.length = row_size) (hpos : 0 < row_size) :
    rowMajor row_size (l ++ rest) = l :: rowMajor row_size rest := by
  unfold rowMajor
  have hq : ((l ++ rest).length + row_size - 1) / row_size =
      (rest.length + row_size - 1) / row_size + 1 := by
    have h1 : (l ++ rest).length + row_size - 1 = (rest.length + row_size - 1) + row_size := by
      rw [List.length_append]
      omega
    rw [h1, Nat.add_div_right _ hpos]
  rw [hq, List.range_succ_eq_map, List.map_cons, List.map_map]
  congr 1
  · simp [← h]
  · apply List.map_congr_left
    intro j _
    simp only [Function.comp_apply, Nat.succ_eq_add_one]
    have : (j + 1) * row_size = l.length + j * row_size := by
      rw [Nat.succ_mul, h, Nat.add_comm]
    rw [this, ← List.drop_drop, List.drop_left]

theorem Keyboard.ToNiceKeyboard.loop_eq_rowMajor (row_size : Nat) (make_key : CppString → CppString)
    (hpos : 0 < row_size) (texts : List CppString) (layout : KeyboardLayout)
    (row : List KeyboardButton) (hrow : row.length < row_size) :
    (match Keyboard.ToNiceKeyboard.loop row_size make_key texts layout row row.length with
      | (layout, row) => if row.length ≠ 0 then layout ++ [row] else layout) =
    layout ++ rowMajor row_size
      (row ++ texts.map fun t => KeyboardButton.make t (make_key t)) := by
  induction texts generalizing layout row with
  | nil =>
    simp only [Keyboard.ToNiceKeyboard.loop, List.map_nil, List.append_nil]
    rw [rowMajor_short row_size row hrow]
    split <;> simp
  | cons t rest ih =>
    simp only [Keyboard.ToNiceKeyboard.loop, List.map_cons]
    by_cases hfull : row.length + 1 = row_size
    · rw [if_pos hfull]
      have h0 := ih (layout ++ [row ++ [KeyboardButton.make t (make_key t)]]) [] hpos
      simp only [List.length_nil, List.nil_append] at h0
      rw [h0]
      have := rowMajor_full_append row_size (row ++ [KeyboardButton.make t (make_key t)])
        (rest.map fun t => KeyboardButton.make t (make_key t)) (by simp [hfull]) hpos
      simp only [List.append_assoc, List.singleton_append] at this ⊢
      rw [this]
    · rw [if_neg hfull]
      have h1 := ih layout (row ++ [KeyboardButton.make t (make_key t)])
        (by simp only [List.length_append, List.length_singleton]; omega)
      simp only [List.length_append, List.length_singleton, List.append_assoc,
        List.singleton_append] at h1
      exact h1

/-- The layout that `ToNiceKeyboard` builds is the row-major chunking of the
buttons of the texts. -/
theorem Keyboard.ToNiceKeyboard_eq_rowMajor (texts : List CppString) (row_size : Nat)
    (make_key : CppString → CppString) (hpos : 0 < row_size) :
    Keyboard.ToNiceKeyboard texts row_size make_key =
      rowMajor row_size (texts.map fun t => KeyboardButton.make t (make_key t)) := by
  have := Keyboard.ToNiceKeyboard.loop_eq_rowMajor row_size make_key hpos texts [] [] hpos
  simpa [Keyboard.ToNiceKeyboard] using this

theorem rowMajor_index_lt (row_size n j : Nat) (hpos : 0 < row_size) :
    j < (n + row_size - 1) / row_size ↔ j * row_size < n := by
  rw [Nat.lt_iff_add_one_le, Nat.le_div_iff_mul_le hpos, Nat.succ_mul]
  omega

theorem rowMajor_getElem? {α : Type} (row_size : Nat) (l : List α) (j : Nat)
    (hj : j < (l.length + row_size - 1) / row_size) :
    (rowMajor row_size l)[j]? = some ((l.drop (j * row_size)).take row_size) := by
  simp [rowMajor, List.getElem?_map, List.getElem?_range hj]

/-- C6: for `row_size >= 1`, `ToNiceKeyboard texts row_size make_key` is the
row-major chunking of `texts`: it has `ceil (n / row_size)` rows; row `j` holds,
in order, the buttons of `texts[j * row_size ..]` up to `row_size` of them, the
button of text `t` having display text `t` and callback payload `make_key t`;
every row but the last has exactly `row_size` buttons, and every row has between
1 and `row_size` buttons. -/
theorem Keyboard.ToNiceKeyboard_row_major (texts : List CppString) (row_size : Nat)
    (make_key : CppString → CppString) (hpos : 1 ≤ row_size) :
    (Keyboard.ToNiceKeyboard texts row_size make_key).length =
        (texts.length + row_size - 1) / row_size ∧
      ∀ j, j < (Keyboard.ToNiceKeyboard texts row_size make_key).length →
        ∃ row, (Keyboard.ToNiceKeyboard texts row_size make_key)[j]? = some row ∧
          row.map (fun b => (b.Text, b.CallbackData)) =
            ((texts.drop (j * row_size)).take row_size).map (fun t => (t, make_key t)) ∧
          (j + 1 < (Keyboard.ToNiceKeyboard texts row_size make_key).length →
            row.length = row_size) ∧
          1 ≤ row.length ∧ row.length ≤ row_size := by
  rw [Keyboard.ToNiceKeyboard_eq_rowMajor texts row_size make_key hpos]
  have hlen : (rowMajor row_size
      (texts.map fun t => KeyboardButton.make t (make_key t))).length =
      (texts.length + row_size - 1) / row_size := by
    simp [rowMajor]
  refine ⟨hlen, ?_⟩
  intro j hj
  rw [hlen] at hj ⊢
  have hj' : j * row_size < texts.length := (rowMajor_index_lt row_size _ j hpos).mp hj
  refine ⟨_, rowMajor_getElem? row_size _ j (by simpa using hj), ?_, ?_, ?_, ?_⟩
  · rw [← List.map_drop, ← List.map_take, List.map_map]
    rfl
  · intro hj1
    have h1 : (j + 1) * row_size < texts.length :=
      (rowMajor_index_lt row_size _ (j + 1) hpos).mp hj1
    rw [Nat.succ_mul] at h1
    simp only [List.length_take, List.length_drop, List.length_map]
    omega
  · simp only [List.length_take, List.length_drop, List.length_map]
    omega
  · simp only [List.length_take, List.length_drop, List.length_map]
    omega

/-- C6 at the texts `a, b, c, d, e` with rows of 2: the rows are `[a, b]`,
`[c, d]`, `[e]`. -/
theorem Keyboard.ToNiceKeyboard_row_major_witness :
    1 ≤ 2 ∧
      Keyboard.ToNiceKeyboard [['a'], ['b'], ['c'], ['d'], ['e']] 2 id =
        [[KeyboardButton.make ['a'] ['a'], KeyboardButton.make ['b'] ['b']],
         [KeyboardButton.make ['c'] ['c'], KeyboardButton.make ['d'] ['d']],
         [KeyboardButton.make ['e'] ['e']]] ∧
      (Keyboard.ToNiceKeyboard [['a'], ['b'], ['c'], ['d'], ['e']] 2 id).length =
        (5 + 2 - 1) / 2 :=
  ⟨by decide, by decide,
    (Keyboard.ToNiceKeyboard_row_major [['a'], ['b'], ['c'], ['d'], ['e']] 2 id
      (by decide)).1⟩

/-! ## Conversion to the wire format: proofs -/

theorem ToInlineKeyboardMarkup.row_eq (row : List KeyboardButton) :
    ToInlineKeyboardMarkup.row row =
      (row.filter fun b => b.Enabled).map fun b =>
        { text := b.Text, callbackData := b.CallbackData } := by
  have key : ∀ (l : List KeyboardButton) (acc : List InlineKeyboardButton),
      l.foldl
        (fun row_markup button =>
          if !button.Enabled then
            row_markup
          else
            row_markup ++ [{ text := button.Text, callbackData := button.CallbackData }])
        acc =
      acc ++ (l.filter fun b => b.Enabled).map fun b =>
        ({ text := b.Text, callbackData := b.CallbackData } : InlineKeyboardButton) := by
    intro l
    induction l with
    | nil => simp
    | cons b l ih =>
      intro acc
      rw [List.foldl_cons, ih]
      cases hb : b.Enabled <;> simp [hb]
  simpa [ToInlineKeyboardMarkup.row] using key row []

theorem ToInlineKeyboardMarkup.rows_eq (keyboard : KeyboardLayout)
    (acc : List (List InlineKeyboardButton)) :
    keyboard.foldl
        (fun inlineKeyboard row =>
          if (ToInlineKeyboardMarkup.row row).length ≠ 0 then
            inlineKeyboard ++ [ToInlineKeyboardMarkup.row row]
          else inlineKeyboard)
        acc =
      acc ++ (keyboard.map ToInlineKeyboardMarkup.row).filter fun r => r.length ≠ 0 := by
  induction keyboard generalizing acc with
  | nil => simp
  | cons row rest ih =>
    rw [List.foldl_cons, ih]
    by_cases h : (ToInlineKeyboardMarkup.row row).length = 0
    · have h' : ToInlineKeyboardMarkup.row row = [] := List.length_eq_zero.mp h
      simp [h, h', List.filter_cons]
    · have h' : ¬ ToInlineKeyboardMarkup.row row = [] :=
        fun e => h (List.length_eq_zero.mpr e)
      simp [h, h', List.filter_cons]

/-- C7: when `ToInlineKeyboardMarkup` yields a keyboard, its rows are the input
rows, in order, each restricted to its enabled buttons (text and callback
payload copied), without the rows that have no enabled button; the wire keyboard
has no empty row, and each of its buttons comes from an enabled button. -/
theorem ToInlineKeyboardMarkup_rows (keyboard : KeyboardLayout) (markup : InlineKeyboardMarkup)
    (h : ToInlineKeyboardMarkup keyboard = some markup) :
    markup.inlineKeyboard =
        ((keyboard.map fun row =>
            (row.filter fun b => b.Enabled).map fun b =>
              ({ text := b.Text, callbackData := b.CallbackData } : InlineKeyboardButton)).filter
          fun r => r.length ≠ 0) ∧
      (∀ r ∈ markup.inlineKeyboard, r ≠ []) ∧
      (∀ r ∈ markup.inlineKeyboard, ∀ w ∈ r, ∃ row ∈ keyboard, ∃ b ∈ row,
        b.Enabled = true ∧ w.text = b.Text ∧ w.callbackData = b.CallbackData) := by
  have hrows : markup.inlineKeyboard =
      ((keyboard.map fun row =>
          (row.filter fun b => b.Enabled).map fun b =>
            ({ text := b.Text, callbackData := b.CallbackData } : InlineKeyboardButton)).filter
        fun r => r.length ≠ 0) := by
    unfold ToInlineKeyboardMarkup at h
    split at h
    · exact absurd h (by simp)
    · simp only [Option.some.injEq] at h
      rw [← h]
      have := ToInlineKeyboardMarkup.rows_eq keyboard []
      simp only [List.nil_append] at this
      simp only [this]
      congr 2
      funext row
      exact ToInlineKeyboardMarkup.row_eq row
  refine ⟨hrows, ?_, ?_⟩
  · intro r hr
    rw [hrows, List.mem_filter] at hr
    intro e
    rw [e] at hr
    simp at hr
  · intro r hr w hw
    rw [hrows, List.mem_filter, List.mem_map] at hr
    obtain ⟨⟨row, hrow, rfl⟩, _⟩ := hr
    rw [List.mem_map] at hw
    obtain ⟨b, hb, rfl⟩ := hw
    rw [List.mem_filter] at hb
    exact ⟨row, hrow, b, hb.1, hb.2, rfl, rfl⟩

/-- C7 at a layout of two rows, the second without an enabled button. -/
theorem ToInlineKeyboardMarkup_rows_witness :
    ToInlineKeyboardMarkup
        [[{ Text := ['a'], CallbackData := ['x'], Enabled := true },
          { Text := ['b'], CallbackData := ['y'], Enabled := false }],
         [{ Text := ['c'], CallbackData := ['z'], Enabled := false }]] =
        some { inlineKeyboard := [[{ text := ['a'], callbackData := ['x'] }]] } ∧
      ∀ r ∈ [[({ text := ['a'], callbackData := ['x'] } : InlineKeyboardButton)]], r ≠ [] :=
  ⟨by decide,
    (ToInlineKeyboardMarkup_rows
      [[{ Text := ['a'], CallbackData := ['x'], Enabled := true },
        { Text := ['b'], CallbackData := ['y'], Enabled := false }],
       [{ Text := ['c'], CallbackData := ['z'], Enabled := false }]]
      { inlineKeyboard := [[{ text := ['a'], callbackData := ['x'] }]] } (by decide)).2.1⟩

/-- C8 fails on the code for a layout with rows: a layout with at least one row
and no enabled button is converted to a keyboard structure with zero rows, not
to the null result the claim states; the layout with zero rows is converted to
the null result. -/
theorem ToInlineKeyboardMarkup_no_enabled (keyboard : KeyboardLayout)
    (h : ∀ row ∈ keyboard, ∀ b ∈ row, b.Enabled = false) :
    ToInlineKeyboardMarkup [] = none ∧
      (keyboard ≠ [] → ToInlineKeyboardMarkup keyboard = some { inlineKeyboard := [] }) := by
  refine ⟨rfl, ?_⟩
  intro hne
  have hlen : ¬ keyboard.length = 0 := fun e => hne (List.length_eq_zero.mp e)
  have hrow : ∀ row ∈ keyboard, ToInlineKeyboardMarkup.row row = [] := by
    intro row hrow
    rw [ToInlineKeyboardMarkup.row_eq, List.map_eq_nil_iff, List.filter_eq_nil_iff]
    intro b hb
    simp [h row hrow b hb]
  have hrows := ToInlineKeyboardMarkup.rows_eq keyboard []
  simp only [List.nil_append] at hrows
  unfold ToInlineKeyboardMarkup
  rw [if_neg hlen]
  simp only [hrows, Option.some.injEq, InlineKeyboardMarkup.mk.injEq, List.filter_eq_nil_iff,
    List.mem_map]
  rintro r ⟨row, hmem, rfl⟩
  simp [hrow row hmem]

/-- C8 at the layout of one row whose only button is disabled: every button is
disabled, and the result is a keyboard with zero rows and not null. -/
theorem ToInlineKeyboardMarkup_no_enabled_witness :
    (∀ row ∈ ([[{ Text := ['a'], CallbackData := ['a'], Enabled := false }]] : KeyboardLayout),
        ∀ b ∈ row, b.Enabled = false) ∧
      ToInlineKeyboardMarkup [[{ Text := ['a'], CallbackData := ['a'], Enabled := false }]] =
        some { inlineKeyboard := [] } ∧
      ToInlineKeyboardMarkup [[{ Text := ['a'], CallbackData := ['a'], Enabled := false }]] ≠
        none :=
  ⟨by decide,
    (ToInlineKeyboardMarkup_no_enabled
      [[{ Text := ['a'], CallbackData := ['a'], Enabled := false }]] (by decide)).2
      (by decide),
    by decide⟩

/-! ## Message helpers -/

/-- C9 fails on the code: for a non-empty message, when `sendMessage` throws and
the `getChat` made in the catch handler throws too, `SendMessage` does not
return: the second exception leaves it, and nothing is logged. -/
theorem SimpleBot.SendMessage_exception_escapes {W H : Type} (api : Platform W H)
    (bot : SimpleBot W H) (chat topic : Int) (message : CppString)
    (reply : Option InlineKeyboardMarkup) (reply_message : Int) (w1 w2 : W)
    (what what_chat : CppString)
    (hmsg : message ≠ [])
    (hsend : api.sendMessage
      (.sendMessage chat message bot.DisableWebpagePreview chat reply_message reply
        bot.ParseMode topic) bot.world = (w1, .error what))
    (hchat : api.getChat (.getChat chat) w1 = (w2, .error what_chat)) :
    (SimpleBot.SendMessage api bot chat topic message reply reply_message).2 =
        .error (.exception what_chat) ∧
      (SimpleBot.SendMessage api bot chat topic message reply reply_message).1.logged =
        bot.logged := by
  have hlen : ¬ message.length = 0 := fun e => hmsg (List.length_eq_zero.mp e)
  simp [SimpleBot.SendMessage, SimpleBot.callApi, hlen, hsend, hchat]

/-- C9 on the platform where every API call throws `network`: sending `hi` to
the chat 7 ends in that exception, after the calls `sendMessage` and `getChat`,
with nothing logged. -/
theorem SimpleBot.SendMessage_exception_escapes_witness :
    "hi".toList ≠ [] ∧
      (SimpleBot.SendMessage Platform.offline SimpleBot.fresh 7 0 "hi".toList none 0).2 =
        .error (.exception "network".toList) ∧
      (SimpleBot.SendMessage Platform.offline SimpleBot.fresh 7 0 "hi".toList none 0).1.logged =
        [] ∧
      (SimpleBot.SendMessage Platform.offline SimpleBot.fresh 7 0 "hi".toList none 0).1.apiCalls =
        [.sendMessage 7 "hi".toList false 7 0 none [] 0, .getChat 7] :=
  ⟨by decide,
    (SimpleBot.SendMessage_exception_escapes Platform.offline SimpleBot.fresh 7 0 "hi".toList
      none 0 () () "network".toList "network".toList (by decide) rfl rfl).1,
    (SimpleBot.SendMessage_exception_escapes Platform.offline SimpleBot.fresh 7 0 "hi".toList
      none 0 () () "network".toList "network".toList (by decide) rfl rfl).2,
    by decide⟩

/-- What `SendMessage` does in the other cases, for every platform: the empty
message is logged and answered with null without an API call; the result of a
successful `sendMessage` is returned; and when `sendMessage` throws and
`getChat` returns a chat, the failure is logged and null is returned. -/
theorem SimpleBot.SendMessage_contained {W H : Type} (api : Platform W H)
    (bot : SimpleBot W H) (chat topic : Int) (message : CppString)
    (reply : Option InlineKeyboardMarkup) (reply_message : Int) :
    SimpleBot.SendMessage api bot chat topic [] reply reply_message =
        (bot.Log "Can't send empty messages" [], .ok none) ∧
      (message ≠ [] →
        (∀ w1 result, api.sendMessage
            (.sendMessage chat message bot.DisableWebpagePreview chat reply_message reply
              bot.ParseMode topic) bot.world = (w1, .ok result) →
          (SimpleBot.SendMessage api bot chat topic message reply reply_message).2 =
            .ok result) ∧
        (∀ w1 what w2 chat_ptr, api.sendMessage
            (.sendMessage chat message bot.DisableWebpagePreview chat reply_message reply
              bot.ParseMode topic) bot.world = (w1, .error what) →
          api.getChat (.getChat chat) w1 = (w2, .ok (some chat_ptr)) →
          (SimpleBot.SendMessage api bot chat topic message reply reply_message).2 =
            .ok none)) := by
  refine ⟨rfl, fun hmsg => ⟨?_, ?_⟩⟩
  · intro w1 result hsend
    have hlen : ¬ message.length = 0 := fun e => hmsg (List.length_eq_zero.mp e)
    simp [SimpleBot.SendMessage, SimpleBot.callApi, hlen, hsend]
  · intro w1 what w2 chat_ptr hsend hchat
    have hlen : ¬ message.length = 0 := fun e => hmsg (List.length_eq_zero.mp e)
    simp [SimpleBot.SendMessage, SimpleBot.callApi, hlen, hsend, hchat]

/-- C10 fails on the code for `EditMessage`: called with a null message it
dereferences the message, for every text and reply markup, before any API call;
`DeleteMessage` called with a null message returns at once and calls nothing. -/
theorem SimpleBot.EditMessage_null_dereferences {W H : Type} (api : Platform W H)
    (bot : SimpleBot W H) (text : CppString) (reply : Option InlineKeyboardMarkup) :
    SimpleBot.EditMessage api bot none text reply = (bot, .error .nullDereference) ∧
      SimpleBot.DeleteMessage api bot none = (bot, .ok ()) := by
  refine ⟨?_, rfl⟩
  unfold SimpleBot.EditMessage
  by_cases h : text.length = 0 <;> simp [h, deref, Except.bind]

/-! ## The command registry: proofs -/

theorem CppMap.findList_assignList {K V : Type} [DecidableEq K] (l : List (K × V)) (k : K)
    (v : V) : CppMap.findList (CppMap.assignList l k v) k = some v := by
  induction l with
  | nil => simp [CppMap.assignList, CppMap.findList]
  | cons e rest ih =>
    obtain ⟨k', v'⟩ := e
    by_cases h : k' = k
    · simp [CppMap.assignList, CppMap.findList, h]
    · simp [CppMap.assignList, CppMap.findList, h, ih]

theorem CppMap.mem_assignList {K V : Type} [DecidableEq K] (l : List (K × V)) (k : K) (v : V) :
    (k, v) ∈ CppMap.assignList l k v := by
  induction l with
  | nil => simp [CppMap.assignList]
  | cons e rest ih =>
    obtain ⟨k', v'⟩ := e
    by_cases h : k' = k
    · simp [CppMap.assignList, h]
    · simp [CppMap.assignList, h, ih]

theorem CppMap.value_unique {K V : Type} [DecidableEq K] (l : List (K × V))
    (hl : (l.map Prod.fst).Nodup) (k : K) (v v' : V) (h : (k, v) ∈ l) (h' : (k, v') ∈ l) :
    v = v' := by
  induction l with
  | nil => exact absurd h (List.not_mem_nil _)
  | cons e rest ih =>
    rw [List.map_cons, List.nodup_cons] at hl
    have hk : ∀ w, (k, w) ∈ rest → k ∈ rest.map Prod.fst :=
      fun w hw => List.mem_map_of_mem Prod.fst hw
    rcases List.mem_cons.mp h with e1 | h
    · rcases List.mem_cons.mp h' with e2 | h'
      · exact (Prod.mk.inj (e1.trans e2.symm)).2
      · rw [← e1] at hl
        exact absurd (hk v' h') hl.1
    · rcases List.mem_cons.mp h' with e2 | h'
      · rw [← e2] at hl
        exact absurd (hk v h) hl.1
      · exact ih hl.2 h h'

theorem SimpleBot.UpdateCommandDescriptions.commands_eq {W H : Type} (bot : SimpleBot W H) :
    SimpleBot.UpdateCommandDescriptions.commands bot =
      (bot.m_CommandDescriptions.entries.filter fun entry => entry.2.length ≠ 0).map
        fun entry => { command := entry.1, description := entry.2 } := by
  have key : ∀ (l : List (CppString × CppString)) (acc : List BotCommand),
      l.foldl
        (fun commands entry =>
          if entry.2.length = 0 then
            commands
          else
            commands ++ [{ command := entry.1, description := entry.2 }])
        acc =
      acc ++ (l.filter fun entry => entry.2.length ≠ 0).map
        fun entry => ({ command := entry.1, description := entry.2 } : BotCommand) := by
    intro l
    induction l with
    | nil => simp
    | cons e l ih =>
      intro acc
      rw [List.foldl_cons, ih]
      by_cases he : e.2.length = 0
      · have he' : e.2 = [] := List.length_eq_zero.mp he
        simp [he, he', List.filter_cons]
      · have he' : ¬ e.2 = [] := fun x => he (List.length_eq_zero.mpr x)
        simp [he, he', List.filter_cons]
  simpa [SimpleBot.UpdateCommandDescriptions.commands] using key _ []

theorem SimpleBot.UpdateCommandDescriptions_calls {W H : Type} (api : Platform W H)
    (bot : SimpleBot W H) :
    (SimpleBot.UpdateCommandDescriptions api bot).1.apiCalls =
        bot.apiCalls ++ [.setMyCommands (SimpleBot.UpdateCommandDescriptions.commands bot)] ∧
      (SimpleBot.UpdateCommandDescriptions api bot).1.world =
        (api.setMyCommands
          (.setMyCommands (SimpleBot.UpdateCommandDescriptions.commands bot)) bot.world).1 := by
  generalize hp : api.setMyCommands
    (.setMyCommands (SimpleBot.UpdateCommandDescriptions.commands bot)) bot.world = p
  obtain ⟨w, r⟩ := p
  cases r with
  | ok _ => simp [SimpleBot.UpdateCommandDescriptions, SimpleBot.callApi, hp]
  | error what =>
    simp only [SimpleBot.UpdateCommandDescriptions, SimpleBot.callApi, hp, SimpleBot.Log]
    split <;> exact ⟨rfl, rfl⟩

/-- C5: after `OnCommand(t, h, d)` with a non-empty `d`, `UpdateCommandDescriptions`
makes the one call `setMyCommands(commands)` to the platform (the world after it
is the one that call leaves) and `commands` has the entry `(t, d)`; after a
further `OnCommand(t, h2, "")` the list it publishes in the same way has no
entry for `t`, and `BroadcastCommand(t, m)` applies the handler `h2` to `m`,
once: the world after it and what it throws are those of that one call, the
call recorded is that of `h2` on `m`, and nothing else changes, so `h` is not
called. -/
theorem SimpleBot.registration_round_trip {W H : Type} (api : Platform W H)
    (bot : SimpleBot W H) (t : CppString) (h h2 : H) (d : CppString) (m : Option Message)
    (hd : d ≠ []) :
    (∃ commands,
        (SimpleBot.UpdateCommandDescriptions api (bot.OnCommand t h d)).1.apiCalls =
          bot.apiCalls ++ [.setMyCommands commands] ∧
        (SimpleBot.UpdateCommandDescriptions api (bot.OnCommand t h d)).1.world =
          (api.setMyCommands (.setMyCommands commands) bot.world).1 ∧
        { command := t, description := d } ∈ commands) ∧
      (∃ commands,
        (SimpleBot.UpdateCommandDescriptions api
            ((bot.OnCommand t h d).OnCommand t h2 [])).1.apiCalls =
          bot.apiCalls ++ [.setMyCommands commands] ∧
        (SimpleBot.UpdateCommandDescriptions api
            ((bot.OnCommand t h d).OnCommand t h2 [])).1.world =
          (api.setMyCommands (.setMyCommands commands) bot.world).1 ∧
        ∀ c ∈ commands, c.command ≠ t) ∧
      SimpleBot.BroadcastCommand api ((bot.OnCommand t h d).OnCommand t h2 []) t m =
        ({ (bot.OnCommand t h d).OnCommand t h2 [] with
            world := (api.handler h2 m bot.world).1
            invoked := bot.invoked ++ [(h2, m)] },
          (api.handler h2 m bot.world).2.mapError Fault.exception) := by
  refine ⟨⟨_, (SimpleBot.UpdateCommandDescriptions_calls api _).1,
      (SimpleBot.UpdateCommandDescriptions_calls api _).2, ?_⟩,
    ⟨_, (SimpleBot.UpdateCommandDescriptions_calls api _).1,
      (SimpleBot.UpdateCommandDescriptions_calls api _).2, ?_⟩, ?_⟩
  · rw [SimpleBot.UpdateCommandDescriptions.commands_eq, List.mem_map]
    refine ⟨(t, d), ?_, rfl⟩
    rw [List.mem_filter]
    refine ⟨CppMap.mem_assignList _ t d, ?_⟩
    simpa using hd
  · intro c hc
    rw [SimpleBot.UpdateCommandDescriptions.commands_eq, List.mem_map] at hc
    obtain ⟨⟨k, v⟩, hmem, rfl⟩ := hc
    rw [List.mem_filter] at hmem
    intro hk
    simp only at hk
    subst hk
    have hv : v = [] :=
      CppMap.value_unique _
        ((bot.OnCommand k h d).OnCommand k h2 []).m_CommandDescriptions.nodup k v [] hmem.1
        (CppMap.mem_assignList _ k [])
    have := hmem.2
    simp [hv] at this
  · have hfind : ((bot.OnCommand t h d).OnCommand t h2 []).m_CommandHandlers.find t = some h2 :=
      CppMap.findList_assignList _ t h2
    unfold SimpleBot.BroadcastCommand
    rw [hfind]
    rfl

/-- C5 at the fresh bot, the command `start`, the handlers 1 and 2 and the
description `begin`. -/
theorem SimpleBot.registration_round_trip_witness :
    "begin".toList ≠ [] ∧
      (SimpleBot.UpdateCommandDescriptions.commands
        (SimpleBot.fresh.OnCommand "start".toList 1 "begin".toList) =
          [{ command := "start".toList, description := "begin".toList }]) ∧
      (SimpleBot.UpdateCommandDescriptions.commands
        ((SimpleBot.fresh.OnCommand "start".toList 1 "begin".toList).OnCommand
          "start".toList 2 []) = []) ∧
      SimpleBot.BroadcastCommand Platform.offline
        ((SimpleBot.fresh.OnCommand "start".toList 1 "begin".toList).OnCommand
          "start".toList 2 []) "start".toList none =
        ({ (SimpleBot.fresh.OnCommand "start".toList 1 "begin".toList).OnCommand
              "start".toList 2 [] with
            world := (Platform.offline.handler 2 none SimpleBot.fresh.world).1
            invoked := SimpleBot.fresh.invoked ++ [(2, none)] },
          (Platform.offline.handler 2 none SimpleBot.fresh.world).2.mapError Fault.exception) :=
  ⟨by decide, by decide, by decide,
    (SimpleBot.registration_round_trip Platform.offline SimpleBot.fresh "start".toList 1 2
      "begin".toList none (by decide)).2.2⟩

/-! ## The polling cursor: proofs -/

theorem wrapSigned_of_inRange (bits : Nat) (x : Int) (hbits : 0 < bits)
    (hlo : idMin bits ≤ x) (hhi : x ≤ idMax bits) : wrapSigned bits x = x := by
  unfold idMin at hlo
  unfold idMax at hhi
  unfold wrapSigned
  have hpow : (2 : Nat) ^ bits = 2 * 2 ^ (bits - 1) := by
    obtain ⟨n, rfl⟩ : ∃ n, bits = n + 1 := ⟨bits - 1, by omega⟩
    rw [Nat.add_sub_cancel, Nat.pow_succ, Nat.mul_comm]
  rw [hpow]
  generalize (2 : Nat) ^ (bits - 1) = m at hlo hhi
  simp only [Int.ofNat_eq_coe, Nat.cast_mul, Nat.cast_ofNat] at hlo hhi ⊢
  rw [Int.emod_eq_of_lt (by omega) (by omega)]
  omega

theorem FastLongPoll.fastForward_le (idBits : Nat) (hbits : 0 < idBits) (updates : List Update)
    (lastUpdateId : Int)
    (hids : ∀ u ∈ updates, idMin idBits ≤ u.updateId ∧ u.updateId < idMax idBits) :
    lastUpdateId ≤ FastLongPoll.fastForward idBits updates lastUpdateId := by
  induction updates generalizing lastUpdateId with
  | nil => exact le_refl _
  | cons item rest ih =>
    have hitem := hids item (List.mem_cons_self _ _)
    have hrest : ∀ u ∈ rest, idMin idBits ≤ u.updateId ∧ u.updateId < idMax idBits :=
      fun u hu => hids u (List.mem_cons_of_mem _ hu)
    unfold FastLongPoll.fastForward
    split
    · next h =>
      have hw := wrapSigned_of_inRange idBits (item.updateId + 1) hbits (by omega) (by omega)
      refine le_trans ?_ (ih _ hrest)
      rw [hw]
      omega
    · exact ih lastUpdateId hrest

theorem FastLongPoll.handleUpdates.loop_le {W H : Type} (idBits : Nat) (hbits : 0 < idBits)
    (api : Platform W H) (updates : List Update) (s : SimplePollBot W H)
    (hids : ∀ u ∈ updates, idMin idBits ≤ u.updateId ∧ u.updateId < idMax idBits) :
    s.m_Poll._lastUpdateId ≤
      (FastLongPoll.handleUpdates.loop idBits api updates s).1.m_Poll._lastUpdateId := by
  induction updates generalizing s with
  | nil => exact le_refl _
  | cons item rest ih =>
    have hitem := hids item (List.mem_cons_self _ _)
    have hrest : ∀ u ∈ rest, idMin idBits ≤ u.updateId ∧ u.updateId < idMax idBits :=
      fun u hu => hids u (List.mem_cons_of_mem _ hu)
    unfold FastLongPoll.handleUpdates.loop
    generalize hp : api.handleUpdate item s.world = p
    obtain ⟨w, r⟩ := p
    have hstep : s.m_Poll._lastUpdateId ≤
        (if item.updateId ≥ s.m_Poll._lastUpdateId then
          { s.m_Poll with _lastUpdateId := wrapSigned idBits (item.updateId + 1) }
        else s.m_Poll)._lastUpdateId := by
      split
      · next h =>
        have hw := wrapSigned_of_inRange idBits (item.updateId + 1) hbits (by omega) (by omega)
        simp only [hw]
        omega
      · exact le_refl _
    cases r with
    | error what => exact hstep
    | ok _ => exact le_trans hstep (ih _ hrest)

/-- C4 as stated fails: in 32 bits, from the cursor 42 the update with the
largest id 2147483647 takes the cursor of the constructor's fast-forward down to
-2147483648. -/
theorem FastLongPoll.cursor_monotone_counterexample :
    FastLongPoll.fastForward 32 [{ updateId := 2147483647, event := 0 }] 42 = -2147483648 ∧
      ¬ ((42 : Int) ≤
        FastLongPoll.fastForward 32 [{ updateId := 2147483647, event := 0 }] 42) := by
  decide

/-- C4, amended: when every id of the updates is a value of the id type below
its largest value, the cursor never decreases.  The fast-forward of the
constructor ends at or above the starting value, for every such list of updates
in any order; and after `handleUpdates`, whether it returns or an exception of
the event dispatch leaves it, the cursor is at or above the cursor before it. -/
theorem FastLongPoll.cursor_monotone {W H : Type} (idBits : Nat) (api : Platform W H)
    (hbits : 0 < idBits) :
    (∀ (bot : SimpleBot W H) (lastUpdateId limit timeout : Int)
        (allowUpdates : Option (List CppString)) (w : W) (updates : List Update),
        api.getUpdates (.getUpdates (-1) 1 0 none) bot.world = (w, .ok updates) →
        (∀ u ∈ updates, idMin idBits ≤ u.updateId ∧ u.updateId < idMax idBits) →
        ∃ poll, (FastLongPoll.new idBits api bot lastUpdateId limit timeout allowUpdates).2 =
            .ok poll ∧ lastUpdateId ≤ poll._lastUpdateId) ∧
      (∀ (updates : List Update) (lastUpdateId : Int),
        (∀ u ∈ updates, idMin idBits ≤ u.updateId ∧ u.updateId < idMax idBits) →
        lastUpdateId ≤ FastLongPoll.fastForward idBits updates lastUpdateId) ∧
      ∀ s : SimplePollBot W H,
        (∀ u ∈ s.m_Poll._updates, idMin idBits ≤ u.updateId ∧ u.updateId < idMax idBits) →
        s.m_Poll._lastUpdateId ≤
          (FastLongPoll.handleUpdates idBits api s).1.m_Poll._lastUpdateId := by
  refine ⟨?_, fun updates c h => FastLongPoll.fastForward_le idBits hbits updates c h,
    fun s h => FastLongPoll.handleUpdates.loop_le idBits hbits api _ s h⟩
  intro bot lastUpdateId limit timeout allowUpdates w updates hfetch hids
  refine ⟨{ _lastUpdateId := FastLongPoll.fastForward idBits updates lastUpdateId
            _limit := limit
            _timeout := timeout
            _allowUpdates := allowUpdates
            _updates := [] }, ?_,
    FastLongPoll.fastForward_le idBits hbits updates lastUpdateId hids⟩
  simp only [FastLongPoll.new, SimpleBot.callApi, hfetch]

/-- C4, amended, in 32 bits: from the cursor 42, the updates 44, 41, 44 (out of
order, one below the cursor, one twice) leave the cursor at 45. -/
theorem FastLongPoll.cursor_monotone_witness :
    0 < 32 ∧
      (∀ u ∈ [({ updateId := 44, event := 0 } : Update), { updateId := 41, event := 1 },
          { updateId := 44, event := 2 }], idMin 32 ≤ u.updateId ∧ u.updateId < idMax 32) ∧
      FastLongPoll.fastForward 32
        [{ updateId := 44, event := 0 }, { updateId := 41, event := 1 },
          { updateId := 44, event := 2 }] 42 = 45 ∧
      (42 : Int) ≤ FastLongPoll.fastForward 32
        [{ updateId := 44, event := 0 }, { updateId := 41, event := 1 },
          { updateId := 44, event := 2 }] 42 :=
  ⟨by decide, by decide, by decide,
    (FastLongPoll.cursor_monotone 32 Platform.offline (by decide)).2.1
      [{ updateId := 44, event := 0 }, { updateId := 41, event := 1 },
        { updateId := 44, event := 2 }] 42 (by decide)⟩

theorem FastLongPoll.handleUpdates.loop_apiCalls {W H : Type} (idBits : Nat)
    (api : Platform W H) (updates : List Update) (s : SimplePollBot W H) :
    (FastLongPoll.handleUpdates.loop idBits api updates s).1.apiCalls = s.apiCalls ∧
      (FastLongPoll.handleUpdates.loop idBits api updates s).1.m_Poll._limit =
        s.m_Poll._limit ∧
      (FastLongPoll.handleUpdates.loop idBits api updates s).1.m_Poll._timeout =
        s.m_Poll._timeout ∧
      (FastLongPoll.handleUpdates.loop idBits api updates s).1.m_Poll._allowUpdates =
        s.m_Poll._allowUpdates := by
  induction updates generalizing s with
  | nil => exact ⟨rfl, rfl, rfl, rfl⟩
  | cons item rest ih =>
    unfold FastLongPoll.handleUpdates.loop
    generalize hp : api.handleUpdate item s.world = p
    obtain ⟨w, r⟩ := p
    have hpoll : ∀ q : FastLongPoll, q = (if item.updateId ≥ s.m_Poll._lastUpdateId then
          { s.m_Poll with _lastUpdateId := wrapSigned idBits (item.updateId + 1) }
        else s.m_Poll) →
        q._limit = s.m_Poll._limit ∧ q._timeout = s.m_Poll._timeout ∧
          q._allowUpdates = s.m_Poll._allowUpdates := by
      intro q hq
      subst hq
      split <;> exact ⟨rfl, rfl, rfl⟩
    cases r with
    | error what => exact ⟨rfl, hpoll _ rfl⟩
    | ok _ =>
      obtain ⟨h1, h2, h3, h4⟩ := ih
        ({ s with world := w, dispatched := s.dispatched ++ [item],
                  m_Poll := if item.updateId ≥ s.m_Poll._lastUpdateId then
                      { s.m_Poll with _lastUpdateId := wrapSigned idBits (item.updateId + 1) }
                    else s.m_Poll } : SimplePollBot W H)
      obtain ⟨g2, g3, g4⟩ := hpoll _ rfl
      exact ⟨h1, h2.trans g2, h3.trans g3, h4.trans g4⟩

/-- What `handleUpdates` leaves when the dispatch first fails at index `k` of a
batch of strictly ascending ids, none below the cursor, the id at `k` below the
largest value of the id type. -/
theorem FastLongPoll.handleUpdates.loop_fails {W H : Type} (idBits : Nat) (hbits : 0 < idBits)
    (api : Platform W H) (batch : List Update) (k : Nat) (s : SimplePollBot W H)
    (item : Update)
    (hitem : batch[k]? = some item)
    (hasc : batch.Pairwise fun a b => a.updateId < b.updateId)
    (hge : ∀ u ∈ batch, s.m_Poll._lastUpdateId ≤ u.updateId)
    (hlow : idMin idBits ≤ s.m_Poll._lastUpdateId)
    (hmax : item.updateId < idMax idBits)
    (hfail : dispatchFailsAt api s.world batch k = true) :
    (∃ what, (FastLongPoll.handleUpdates.loop idBits api batch s).2 =
        .error (.exception what)) ∧
      (FastLongPoll.handleUpdates.loop idBits api batch s).1.m_Poll._lastUpdateId =
        item.updateId + 1 ∧
      (FastLongPoll.handleUpdates.loop idBits api batch s).1.dispatched =
        s.dispatched ++ batch.take (k + 1) := by
  induction batch generalizing k s with
  | nil => exact absurd hfail (by simp [dispatchFailsAt])
  | cons first rest ih =>
    have hfirst : first.updateId ≥ s.m_Poll._lastUpdateId := hge first (List.mem_cons_self _ _)
    have hfirst_le : first.updateId ≤ item.updateId := by
      cases k with
      | zero =>
        simp only [List.getElem?_cons_zero, Option.some.injEq] at hitem
        rw [hitem]
      | succ k =>
        simp only [List.getElem?_cons_succ] at hitem
        rw [List.pairwise_cons] at hasc
        exact le_of_lt (hasc.1 item (List.getElem?_mem hitem))
    have hw := wrapSigned_of_inRange idBits (first.updateId + 1) hbits (by omega) (by omega)
    unfold FastLongPoll.handleUpdates.loop
    unfold dispatchFailsAt at hfail
    generalize hp : api.handleUpdate first s.world = p at hfail
    obtain ⟨w, r⟩ := p
    rw [if_pos hfirst, hw]
    cases r with
    | error what =>
      cases k with
      | zero =>
        simp only [List.getElem?_cons_zero, Option.some.injEq] at hitem
        subst hitem
        exact ⟨⟨what, rfl⟩, rfl, by simp⟩
      | succ k => exact absurd hfail (by simp)
    | ok _ =>
      cases k with
      | zero => exact absurd hfail (by simp)
      | succ k =>
        simp only [List.getElem?_cons_succ] at hitem
        rw [List.pairwise_cons] at hasc
        have hfail' : dispatchFailsAt api w rest k = true := by simpa using hfail
        obtain ⟨h1, h2, h3⟩ := ih k
          ({ s with world := w, dispatched := s.dispatched ++ [first],
                    m_Poll := { s.m_Poll with _lastUpdateId := first.updateId + 1 } } :
            SimplePollBot W H)
          hitem hasc.2
          (fun u hu => by
            have := hasc.1 u hu
            simp only
            omega)
          (by simp only; omega)
          hfail'
        refine ⟨h1, h2, ?_⟩
        rw [h3]
        simp

theorem FastLongPoll.start_apiCalls {W H : Type} (idBits : Nat) (api : Platform W H)
    (s : SimplePollBot W H) :
    (FastLongPoll.start idBits api s).1.apiCalls =
        s.apiCalls ++ [.getUpdates s.m_Poll._lastUpdateId s.m_Poll._limit s.m_Poll._timeout
          s.m_Poll._allowUpdates] := by
  generalize hp : api.getUpdates (.getUpdates s.m_Poll._lastUpdateId s.m_Poll._limit
    s.m_Poll._timeout s.m_Poll._allowUpdates) s.world = p
  obtain ⟨w, r⟩ := p
  cases r with
  | error what => simp only [FastLongPoll.start, SimpleBot.callApi, hp]
  | ok updates =>
    simp only [FastLongPoll.start, SimpleBot.callApi, hp, FastLongPoll.handleUpdates]
    exact (FastLongPoll.handleUpdates.loop_apiCalls idBits api updates _).1

theorem SimplePollBot.LongPollIteration_state {W H : Type} (idBits : Nat) (api : Platform W H)
    (s : SimplePollBot W H) :
    (SimplePollBot.LongPollIteration idBits api s).1.m_Poll =
        (FastLongPoll.start idBits api s).1.m_Poll ∧
      (SimplePollBot.LongPollIteration idBits api s).1.apiCalls =
        (FastLongPoll.start idBits api s).1.apiCalls ∧
      (SimplePollBot.LongPollIteration idBits api s).1.dispatched =
        (FastLongPoll.start idBits api s).1.dispatched ∧
      ((∃ what, (FastLongPoll.start idBits api s).2 = .error (.exception what)) →
        (SimplePollBot.LongPollIteration idBits api s).2 = .ok ()) := by
  unfold SimplePollBot.LongPollIteration
  generalize FastLongPoll.start idBits api s = r
  obtain ⟨s1, res⟩ := r
  cases res with
  | ok _ => exact ⟨rfl, rfl, rfl, fun _ => rfl⟩
  | error fault =>
    cases fault with
    | nullDereference => exact ⟨rfl, rfl, rfl, fun ⟨_, h⟩ => by cases h⟩
    | exception what =>
      refine ⟨rfl, ?_, ?_, fun _ => rfl⟩
      · simp only [SimpleBot.Log]
        split <;> rfl
      · simp only [SimpleBot.Log]
        split <;> rfl

/-- C3 as stated fails: in 32 bits, when the batch fetched at the cursor 42 is
the one update with the largest id 2147483647 and the dispatch fails on it, the
cursor is left at -2147483648: it is not the id plus one, and it is not above
the id, so the next fetch requests an offset that does not exclude the
update. -/
theorem SimplePollBot.cursor_per_update_counterexample :
    Platform.failsOnLargest.getUpdates (.getUpdates 42 100 10 none) () =
        ((), .ok [{ updateId := 2147483647, event := 0 }]) ∧
      dispatchFailsAt Platform.failsOnLargest ()
        [{ updateId := 2147483647, event := 0 }] 0 = true ∧
      (42 : Int) ≤ 2147483647 ∧
      (SimplePollBot.LongPollIteration 32 Platform.failsOnLargest
        SimplePollBot.fresh).1.m_Poll._lastUpdateId = -2147483648 ∧
      ¬ ((SimplePollBot.LongPollIteration 32 Platform.failsOnLargest
        SimplePollBot.fresh).1.m_Poll._lastUpdateId = 2147483647 + 1) ∧
      (SimplePollBot.LongPollIteration 32 Platform.failsOnLargest
          (SimplePollBot.LongPollIteration 32 Platform.failsOnLargest
            SimplePollBot.fresh).1).1.apiCalls =
        [.getUpdates 42 100 10 none, .getUpdates (-2147483648) 100 10 none] := by
  decide

/-- C3, amended: when the fetch of a poll iteration returns a batch of strictly
ascending ids, none below the cursor, the event dispatch first fails on the
update at index `k`, and the id of that update is below the largest value of
the id type, then after the iteration (which returns: the failure is caught)
the cursor is that update's id plus one; the updates handed to the dispatch are
exactly the first `k + 1` of the batch, each once, and none of the later ones;
and the next iteration requests the offset `id + 1`, above the ids of the
update at `k` and of all earlier ones. -/
theorem SimplePollBot.cursor_per_update {W H : Type} (idBits : Nat) (api : Platform W H)
    (s : SimplePollBot W H) (w1 : W) (batch : List Update) (k : Nat) (item : Update)
    (hbits : 0 < idBits)
    (hfetch : api.getUpdates
      (.getUpdates s.m_Poll._lastUpdateId s.m_Poll._limit s.m_Poll._timeout
        s.m_Poll._allowUpdates) s.world = (w1, .ok batch))
    (hitem : batch[k]? = some item)
    (hasc : batch.Pairwise fun a b => a.updateId < b.updateId)
    (hge : ∀ u ∈ batch, s.m_Poll._lastUpdateId ≤ u.updateId)
    (hlow : idMin idBits ≤ s.m_Poll._lastUpdateId)
    (hmax : item.updateId < idMax idBits)
    (hfail : dispatchFailsAt api w1 batch k = true) :
    (SimplePollBot.LongPollIteration idBits api s).2 = .ok () ∧
      (SimplePollBot.LongPollIteration idBits api s).1.m_Poll._lastUpdateId =
        item.updateId + 1 ∧
      (SimplePollBot.LongPollIteration idBits api s).1.dispatched =
        s.dispatched ++ batch.take (k + 1) ∧
      (∀ j u, j ≤ k → batch[j]? = some u → (batch.take (k + 1)).count u = 1) ∧
      (∀ j u, k < j → batch[j]? = some u → (batch.take (k + 1)).count u = 0) ∧
      (SimplePollBot.LongPollIteration idBits api
          (SimplePollBot.LongPollIteration idBits api s).1).1.apiCalls =
        (SimplePollBot.LongPollIteration idBits api s).1.apiCalls ++
          [.getUpdates (item.updateId + 1) s.m_Poll._limit s.m_Poll._timeout
            s.m_Poll._allowUpdates] ∧
      ∀ j u, j ≤ k → batch[j]? = some u → u.updateId < item.updateId + 1 := by
  -- the state in which `handleUpdates` starts
  have hstart : FastLongPoll.start idBits api s =
      FastLongPoll.handleUpdates.loop idBits api batch
        { toSimpleBot :=
            { s.toSimpleBot with
              world := w1
              apiCalls := s.apiCalls ++ [.getUpdates s.m_Poll._lastUpdateId s.m_Poll._limit
                s.m_Poll._timeout s.m_Poll._allowUpdates] }
          m_Poll := { s.m_Poll with _updates := batch } } := by
    simp only [FastLongPoll.start, SimpleBot.callApi, hfetch, FastLongPoll.handleUpdates]
  obtain ⟨hpoll, hcalls, hdisp, hret⟩ := SimplePollBot.LongPollIteration_state idBits api s
  obtain ⟨hexc, hcursor, hdispatched⟩ :=
    FastLongPoll.handleUpdates.loop_fails idBits hbits api batch k
      ({ toSimpleBot :=
          { s.toSimpleBot with
            world := w1
            apiCalls := s.apiCalls ++ [.getUpdates s.m_Poll._lastUpdateId s.m_Poll._limit
              s.m_Poll._timeout s.m_Poll._allowUpdates] }
         m_Poll := { s.m_Poll with _updates := batch } } : SimplePollBot W H)
      item hitem hasc hge hlow hmax hfail
  obtain ⟨_, hlimit, htimeout, hallow⟩ :=
    FastLongPoll.handleUpdates.loop_apiCalls idBits api batch
      ({ toSimpleBot :=
          { s.toSimpleBot with
            world := w1
            apiCalls := s.apiCalls ++ [.getUpdates s.m_Poll._lastUpdateId s.m_Poll._limit
              s.m_Poll._timeout s.m_Poll._allowUpdates] }
         m_Poll := { s.m_Poll with _updates := batch } } : SimplePollBot W H)
  rw [← hstart] at hexc hcursor hdispatched hlimit htimeout hallow
  have hnodup : batch.Nodup :=
    hasc.imp fun {a b} hab e => by
      rw [e] at hab
      exact lt_irrefl _ hab
  refine ⟨hret hexc, by rw [hpoll, hcursor], by rw [hdisp, hdispatched], ?_, ?_, ?_, ?_⟩
  · intro j u hj hu
    have hmem : u ∈ batch.take (k + 1) := by
      apply List.getElem?_mem (n := j)
      rw [List.getElem?_take, if_pos (by omega), hu]
    exact List.count_eq_one_of_mem (hnodup.sublist (List.take_sublist _ _)) hmem
  · intro j u hj hu
    have hmem : u ∈ batch.drop (k + 1) := by
      apply List.getElem?_mem (n := j - (k + 1))
      rw [List.getElem?_drop, ← hu]
      congr 1
      omega
    exact List.count_eq_zero_of_not_mem fun h =>
      List.disjoint_take_drop hnodup (le_refl _) h hmem
  · have h := FastLongPoll.start_apiCalls idBits api
      (SimplePollBot.LongPollIteration idBits api s).1
    rw [(SimplePollBot.LongPollIteration_state idBits api _).2.1, h, hpoll, hcursor, hlimit,
      htimeout, hallow]
  · intro j u hj hu
    rcases Nat.lt_or_eq_of_le hj with hlt | heq
    · obtain ⟨hjl, hju⟩ := List.getElem?_eq_some_iff.mp hu
      obtain ⟨hkl, hki⟩ := List.getElem?_eq_some_iff.mp hitem
      have := List.pairwise_iff_getElem.mp hasc j k hjl hkl hlt
      rw [hju, hki] at this
      omega
    · subst heq
      rw [hitem] at hu
      cases hu
      omega

/-- C3, amended, in 32 bits at the batch 42, 43, 44 fetched at cursor 42, the
dispatch failing on 43: the cursor is left at 44, the updates 42 and 43 were
dispatched, 44 was not. -/
theorem SimplePollBot.cursor_per_update_witness :
    dispatchFailsAt Platform.failsOn43 ()
        [{ updateId := 42, event := 0 }, { updateId := 43, event := 1 },
          { updateId := 44, event := 2 }] 1 = true ∧
      (43 : Int) < idMax 32 ∧
      (SimplePollBot.LongPollIteration 32 Platform.failsOn43
        SimplePollBot.fresh).1.m_Poll._lastUpdateId = 44 ∧
      (SimplePollBot.LongPollIteration 32 Platform.failsOn43 SimplePollBot.fresh).1.dispatched =
        [{ updateId := 42, event := 0 }, { updateId := 43, event := 1 }] :=
  ⟨by decide, by decide,
    (SimplePollBot.cursor_per_update 32 Platform.failsOn43 SimplePollBot.fresh ()
      [{ updateId := 42, event := 0 }, { updateId := 43, event := 1 },
        { updateId := 44, event := 2 }] 1 { updateId := 43, event := 1 }
      (by decide) rfl rfl (by decide) (by decide) (by decide) (by decide) (by decide)).2.1,
    (SimplePollBot.cursor_per_update 32 Platform.failsOn43 SimplePollBot.fresh ()
      [{ updateId := 42, event := 0 }, { updateId := 43, event := 1 },
        { updateId := 44, event := 2 }] 1 { updateId := 43, event := 1 }
      (by decide) rfl rfl (by decide) (by decide) (by decide) (by decide) (by decide)).2.2.1⟩
